import Mathlib

/-!
Verification of the video-semantic-search backend against its specification.

The definitions below are a shallow embedding of the Python sources:
  backend/app/routers/search.py      (search_videos, group_into_moments)
  backend/app/routers/debug.py       (get_pool_stats)
  backend/app/utils/openai_filter.py (filter_results_by_semantic_similarity)
  backend/worker/utils/supabase_io.py (insert_video, update_video_status)
  backend/worker/ingest_video.py     (ingest_video)

Machine floats carrying similarity scores are modelled as exact rationals;
every operation performed on them in the sources is a comparison, which the
float and the rational decide identically on the represented values.
Database rows are modelled as records, tables as functions from id to an
optional record, and Python exceptions as Except values.
-/

/-- One row of the ANN query result, in the tuple order produced by the SQL
select in search.py: (segment_id, video_id, t_start_ms, frame_url, score,
caption). The caption field models the text entry of the JSONB caption
payload, none when the payload is absent. -/
structure Seg where
  segment_id : String
  video_id : String
  timestamp_ms : Int
  frame_url : String
  score : ℚ
  caption : Option String
deriving DecidableEq, Repr

/-- The current-moment dictionary built by group_into_moments in
search.py lines 210-216. -/
structure Moment where
  video_id : String
  start_ms : Int
  end_ms : Int
  best_segment : Seg
  best_score : ℚ
deriving DecidableEq, Repr

/-- Starting a moment from a row (search.py lines 210-216 and 233-239). -/
def newMoment (seg : Seg) : Moment :=
  { video_id := seg.video_id
    start_ms := seg.timestamp_ms
    end_ms := seg.timestamp_ms
    best_segment := seg
    best_score := seg.score }

/-- Extending the current moment with an admitted row (search.py lines
224-229): end_ms is overwritten with the row timestamp, and the best
segment is replaced only when the new score is strictly greater. -/
def extendMoment (cm : Moment) (seg : Seg) : Moment :=
  let cm2 := { cm with end_ms := seg.timestamp_ms }
  if seg.score > cm.best_score then
    { cm2 with best_segment := seg, best_score := seg.score }
  else
    cm2

/-- The admission test of search.py lines 219-221: same video id and
timestamp gap from the current end_ms at most the threshold. The gap is a
signed difference, so a row earlier than end_ms always passes the test. -/
def sameMomentTest (thr : Int) (cm : Moment) (seg : Seg) : Prop :=
  seg.video_id = cm.video_id ∧ seg.timestamp_ms - cm.end_ms ≤ thr

instance (thr : Int) (cm : Moment) (seg : Seg) : Decidable (sameMomentTest thr cm seg) := by
  unfold sameMomentTest
  infer_instance

/-- One iteration of the loop body of group_into_moments (search.py lines
205-239), acting on the pair (moments list so far, current moment). -/
def groupStep (thr : Int) (st : List Seg × Option Moment) (seg : Seg) :
    List Seg × Option Moment :=
  match st with
  | (moments, none) => (moments, some (newMoment seg))
  | (moments, some cm) =>
    if sameMomentTest thr cm seg then
      (moments, some (extendMoment cm seg))
    else
      (moments ++ [cm.best_segment], some (newMoment seg))

/-- The loop state of group_into_moments after consuming a list of rows. -/
def momentsState (thr : Int) (segments : List Seg) : List Seg × Option Moment :=
  segments.foldl (groupStep thr) ([], none)

/-- Embedding of group_into_moments (search.py lines 185-245): run the loop
over all rows, then append the best segment of the final open moment. An
empty input yields an empty output, as the early return does. -/
def group_into_moments (segments : List Seg) (time_threshold_ms : Int) : List Seg :=
  match momentsState time_threshold_ms segments with
  | (moments, none) => moments
  | (moments, some cm) => moments ++ [cm.best_segment]

/-- The score filter of search.py line 140: keep exactly the rows whose
score is at least min_score (the comparison in the source is score >=
request.min_score). -/
def filter_by_min_score (rows : List Seg) (min_score : ℚ) : List Seg :=
  rows.filter (fun r => decide (min_score ≤ r.score))

/-- First row of the clustering example fixed by the specification:
video vidA, t = 0 ms, score 0.9. -/
def exSegA : Seg :=
  { segment_id := "seg-a", video_id := "vidA", timestamp_ms := 0
    frame_url := "frames/u/vidA/frame_00000000.jpg", score := mkRat 9 10
    caption := some "a" }

/-- Second row of the clustering example: video vidA, t = 1500 ms, score 0.5. -/
def exSegB : Seg :=
  { segment_id := "seg-b", video_id := "vidA", timestamp_ms := 1500
    frame_url := "frames/u/vidA/frame_00001500.jpg", score := mkRat 5 10
    caption := some "b" }

/-- Third row of the clustering example: video vidA, t = 5000 ms, score 0.95. -/
def exSegC : Seg :=
  { segment_id := "seg-c", video_id := "vidA", timestamp_ms := 5000
    frame_url := "frames/u/vidA/frame_00005000.jpg", score := mkRat 95 100
    caption := some "c" }

/-- A same-video row at t = 4000 ms, later in score order than exSegC but
earlier in time; used to exercise the clustering on time-unsorted input. -/
def exSegD : Seg :=
  { segment_id := "seg-d", video_id := "vidA", timestamp_ms := 4000
    frame_url := "frames/u/vidA/frame_00004000.jpg", score := mkRat 6 10
    caption := some "d" }

/-- A same-video row at t = 1000 ms whose score 0.9 ties the score of
exSegA, used to exercise the tie-break on an actually equal score. -/
def exSegE : Seg :=
  { segment_id := "seg-e", video_id := "vidA", timestamp_ms := 1000
    frame_url := "frames/u/vidA/frame_00001000.jpg", score := mkRat 9 10
    caption := some "e" }

/-- One row of the videos table (supabase_io.py insert_video column list),
without the key column id and the server-assigned created_at. -/
structure VideoRecord where
  user_id : String
  url : String
  duration_ms : Int
  width : Option Int
  height : Option Int
  status : String
  error_msg : Option String
  thumbnail_url : Option String
deriving DecidableEq, Repr

/-- The videos table, keyed by the id column. -/
def VideosTable : Type := String → Option VideoRecord

/-- Embedding of insert_video (supabase_io.py lines 142-183): INSERT with ON
CONFLICT (id) DO UPDATE. The conflict branch re-applies duration_ms, width,
height, status, error_msg and thumbnail_url from the excluded row and keeps
the stored user_id and url, exactly as the SET list does. -/
def insert_video (t : VideosTable) (video_id user_id url : String)
    (duration_ms : Int) (width height : Option Int) (status : String)
    (error_msg thumbnail_url : Option String) : VideosTable :=
  fun id =>
    if id = video_id then
      match t video_id with
      | none =>
        some { user_id := user_id, url := url, duration_ms := duration_ms
               width := width, height := height, status := status
               error_msg := error_msg, thumbnail_url := thumbnail_url }
      | some old =>
        some { user_id := old.user_id, url := old.url, duration_ms := duration_ms
               width := width, height := height, status := status
               error_msg := error_msg, thumbnail_url := thumbnail_url }
    else t id

/-- Embedding of update_video_status (supabase_io.py lines 228-244): UPDATE
videos SET status, error_msg WHERE id = video_id. A missing row is left
missing, as an UPDATE matching no row changes nothing. -/
def update_video_status (t : VideosTable) (video_id status : String)
    (error_msg : Option String) : VideosTable :=
  fun id =>
    if id = video_id then
      (t id).map (fun r => { r with status := status, error_msg := error_msg })
    else t id

/-- The summary dict returned by a successful ingest_video run
(ingest_video.py lines 204-211). -/
structure IngestSummary where
  video_id : String
  user_id : String
  duration_ms : Int
  frames_extracted : Nat
  segments_inserted : Nat
  status : String
deriving DecidableEq, Repr

/-- Embedding of the failure semantics of ingest_video (ingest_video.py
lines 68-223). The body of the try block, steps 1 to 6 plus the summary, is
abstracted as a state transformer on the videos table that either returns a
summary or raises; status_update_ok says whether the best-effort
update_video_status call in the except handler itself succeeds. On an
exception the handler attempts the status update, swallows a failure of
that update (bare except: pass), and re-raises the primary exception. -/
def ingest_video_run (steps : VideosTable → VideosTable × Except String IngestSummary)
    (status_update_ok : Bool) (video_id : String) (t : VideosTable) :
    VideosTable × Except String IngestSummary :=
  match steps t with
  | (t1, Except.ok s) => (t1, Except.ok s)
  | (t1, Except.error e) =>
    if status_update_ok then
      (update_video_status t1 video_id "error" (some e), Except.error e)
    else
      (t1, Except.error e)

/-- Embedding of the status derivation in get_pool_stats (debug.py lines
49-54). The float literal 0.3 of the source is modelled by the exact
rational 3/10; the comparison available < size * 0.3 agrees with the exact
one for every pool size the process can hold. -/
def pool_status (available waiting size : Nat) : String :=
  if available = 0 then
    if 0 < waiting then "warning" else "critical"
  else if (available : ℚ) < (size : ℚ) * (3 / 10) then "degraded"
  else "healthy"

/-- The response model SearchResult of search.py lines 25-32. The field
preview_url is declared with the plain type str in the source, which is why
validation rejects a missing URL; see mkSearchResult. -/
structure SearchResult where
  video_id : String
  segment_id : String
  timestamp_ms : Int
  score : ℚ
  preview_url : String
  caption : Option String
deriving DecidableEq, Repr

/-- Pydantic validation of a SearchResult construction (search.py lines
169-176). The preview_url argument carries none when the signed-URL call
failed and the except branch substituted None; because the field type in
the model is str and not Optional, validation then raises. -/
def mkSearchResult (video_id segment_id : String) (timestamp_ms : Int)
    (score : ℚ) (preview_url : Option String) (caption : Option String) :
    Except String SearchResult :=
  match preview_url with
  | some u =>
    Except.ok { video_id := video_id, segment_id := segment_id
                timestamp_ms := timestamp_ms, score := score
                preview_url := u, caption := caption }
  | none => Except.error "validation error: preview_url may not be None"

/-- The bucket-prefix strip of search.py lines 156-161: when frame_url
starts with the frames bucket name and a slash, drop that prefix, else use
the whole reference as the path. Python slicing acts on characters, so the
model works on character lists. -/
def stripBucketPath (bucket_frames frame_url : String) : String :=
  let pfx := (bucket_frames ++ "/").toList
  if pfx.isPrefixOf frame_url.toList then
    String.mk (frame_url.toList.drop pfx.length)
  else frame_url

/-- Rounding to four decimal places, modelling round(score, 4) of search.py
line 173 by exact rational rounding. -/
def round4 (q : ℚ) : ℚ := (round (q * 10000) : ℚ) / 10000

/-- The result-building loop of search.py lines 149-176 over the surviving
moments. The signing call get_signed_url is modelled by the function sign,
returning none when it raises; that exception is caught per item and turns
into a missing preview URL, but the subsequent SearchResult construction
validates the model fields, and a validation failure propagates out of the
loop uncaught. -/
def buildSearchResults (sign : String → String → Option String)
    (bucket_frames : String) : List Seg → Except String (List SearchResult)
  | [] => Except.ok []
  | m :: rest =>
    let path := stripBucketPath bucket_frames m.frame_url
    let preview_url := sign bucket_frames path
    match mkSearchResult m.video_id m.segment_id m.timestamp_ms
        (round4 m.score) preview_url m.caption with
    | Except.error e => Except.error e
    | Except.ok r =>
      match buildSearchResults sign bucket_frames rest with
      | Except.error e => Except.error e
      | Except.ok rs => Except.ok (r :: rs)

/-- The per-result record built by the fan-out worker in openai_filter.py
lines 114-156. -/
structure Processed where
  result : Seg
  index : Nat
  caption_text : String
  semantic_score : ℚ
  passed : Bool
  skipped : Bool
deriving DecidableEq, Repr

/-- Embedding of the worker body of the re-ranking fan-out (openai_filter.py
lines 114-156). The external oracle calculate_text_similarity is abstracted
as score_fn; in the source it catches every failure internally and returns
0.0, so the worker itself is total. A row without caption text is marked
skipped with score 0 and passed False; otherwise passed records whether the
oracle score reaches the threshold. -/
def process_single_result (score_fn : String → String → ℚ) (query : String)
    (result : Seg) (index : Nat) (threshold : ℚ) : Processed :=
  let caption_text := result.caption.getD ""
  if caption_text = "" then
    { result := result, index := index, caption_text := caption_text
      semantic_score := 0, passed := false, skipped := true }
  else
    let s := score_fn query caption_text
    { result := result, index := index, caption_text := caption_text
      semantic_score := s, passed := decide (threshold ≤ s), skipped := false }

/-- The submission loop of openai_filter.py lines 192-195: one worker task
per result, indexed from the given start as enumerate(results, 1) does. -/
def submitAll (score_fn : String → String → ℚ) (query : String)
    (threshold : ℚ) : List Seg → Nat → List Processed
  | [], _ => []
  | r :: rs, i =>
    process_single_result score_fn query r i threshold ::
      submitAll score_fn query threshold rs (i + 1)

/-- The final filtering loop of openai_filter.py lines 212-232: skipped
records are dropped, and a surviving record contributes its original row
exactly when it passed the threshold. -/
def keepPassed (l : List Processed) : List Seg :=
  l.filterMap (fun p =>
    if p.skipped then none
    else if p.passed then some p.result
    else none)

/-- Ordering of processed records by original submission index, the sort key
of openai_filter.py line 209. -/
def leIdx (a b : Processed) : Prop := a.index ≤ b.index

/-- Strict ordering by submission index. -/
def ltIdx (a b : Processed) : Prop := a.index < b.index

instance : DecidableRel leIdx := fun a b => Nat.decLe a.index b.index

instance : IsTotal Processed leIdx := ⟨fun a b => Nat.le_total a.index b.index⟩

instance : IsTrans Processed leIdx := ⟨fun _ _ _ h1 h2 => Nat.le_trans h1 h2⟩

instance : IsAntisymm Processed ltIdx :=
  ⟨fun _ _ h1 h2 => absurd h2 (Nat.lt_asymm h1)⟩

/-- Embedding of filter_results_by_semantic_similarity (openai_filter.py
lines 159-238). The completion argument lists the processed records in the
order in which as_completed delivered them; the gather loop only collects
(its except branch is unreachable because the worker is total), the
collected list is sorted by original index, and the filtering loop keeps
rows that passed. An empty input returns immediately. -/
def filter_results_by_semantic_similarity (score_fn : String → String → ℚ)
    (query : String) (results : List Seg) (threshold : ℚ)
    (completion : List Processed) : List Seg :=
  if results = [] then results
  else keepPassed (List.insertionSort leIdx completion)

/-- Number of rows held by the open moment: one when a moment is open. -/
def stCount : Option Moment → Nat
  | none => 0
  | some _ => 1

/-- A stored video row used as the pre-existing table content in the
upsert statements. -/
def exOldRecord : VideoRecord :=
  { user_id := "user-1", url := "videos/user-1/old.mp4", duration_ms := 8000
    width := some 640, height := some 480, status := "error"
    error_msg := some "probe failed", thumbnail_url := none }

/-- A one-row videos table holding exOldRecord under the id vid-1. -/
def exTable : VideosTable :=
  fun id => if id = "vid-1" then some exOldRecord else none

/-- An ingest body that raises immediately, leaving the table untouched. -/
def exFailingSteps : VideosTable → VideosTable × Except String IngestSummary :=
  fun t => (t, Except.error "ffprobe failed: no video stream")

/-- A constant similarity oracle returning 0.8 for every pair. -/
def exScoreFn : String → String → ℚ := fun _ _ => mkRat 8 10

/-- The completion order that delivers the second worker before the first,
for the two-element fan-out witness. -/
def exCompletion : List Processed :=
  [process_single_result exScoreFn "q" exSegB 2 (mkRat 7 10),
   process_single_result exScoreFn "q" exSegA 1 (mkRat 7 10)]

/-- Projection of extendMoment: without a strictly greater score the
representative is kept. -/
theorem extendMoment_best_of_le (cm : Moment) (seg : Seg)
    (h : ¬ cm.best_score < seg.score) :
    (extendMoment cm seg).best_segment = cm.best_segment := by
  simp only [extendMoment]
  rw [if_neg h]

/-- Projection of extendMoment: a strictly greater score installs the new
row as representative. -/
theorem extendMoment_best_of_lt (cm : Moment) (seg : Seg)
    (h : cm.best_score < seg.score) :
    (extendMoment cm seg).best_segment = seg := by
  simp only [extendMoment]
  rw [if_pos h]

/-- C1: on the input rows (vidA, t 0 ms, score 0.9), (vidA, 1500 ms, 0.5),
(vidA, 5000 ms, 0.95) in that order with threshold 2000 ms,
group_into_moments returns exactly two moments: the 0.9-score segment at
t 0, the best of the first two rows, followed by the singleton at
t 5000. -/
theorem group_into_moments_example_two_moments :
    group_into_moments [exSegA, exSegB, exSegC] 2000 = [exSegA, exSegC] := by
  decide

/-- C2 counterexample: running the clustering on the score-ordered rows
exSegC (t 5000) then exSegD (t 4000) with threshold 2000, the second row is
admitted into the moment opened by the first because its signed gap is
negative, yet end_ms moves backwards from 5000 to 4000. -/
theorem end_ms_decreases_on_admitted_row :
    (momentsState 2000 [exSegC]).2 = some (newMoment exSegC) ∧
    sameMomentTest 2000 (newMoment exSegC) exSegD ∧
    (momentsState 2000 [exSegC, exSegD]).2 =
      some (extendMoment (newMoment exSegC) exSegD) ∧
    (extendMoment (newMoment exSegC) exSegD).end_ms < (newMoment exSegC).end_ms := by
  decide

/-- C2 (amended): whenever a row is admitted to extend the current cluster,
end_ms is overwritten with the timestamp of that row; consequently end_ms
does not decrease exactly when the admitted timestamp is at least the
current end_ms, and on score-ordered input an admitted row lying earlier in
time moves end_ms backwards. -/
theorem end_ms_set_to_admitted_timestamp (thr : Int) (cm : Moment) (seg : Seg)
    (hadm : sameMomentTest thr cm seg) :
    (extendMoment cm seg).end_ms = seg.timestamp_ms ∧
    (cm.end_ms ≤ (extendMoment cm seg).end_ms ↔ cm.end_ms ≤ seg.timestamp_ms) := by
  simp only [extendMoment]
  split <;> simp

/-- Witness for the amended C2 statement at the concrete admitted row
exSegB extending the moment opened by exSegA. -/
theorem end_ms_set_to_admitted_timestamp_witness :
    sameMomentTest 2000 (newMoment exSegA) exSegB ∧
    ((extendMoment (newMoment exSegA) exSegB).end_ms = exSegB.timestamp_ms ∧
     ((newMoment exSegA).end_ms ≤ (extendMoment (newMoment exSegA) exSegB).end_ms ↔
      (newMoment exSegA).end_ms ≤ exSegB.timestamp_ms)) :=
  ⟨by decide, end_ms_set_to_admitted_timestamp 2000 (newMoment exSegA) exSegB (by decide)⟩

/-- C5: extending a cluster replaces the representative only on a strictly
greater score: an equal score keeps the earlier-seen segment, a change of
representative implies a strictly greater score, and a strictly greater
score installs the new row. -/
theorem tie_break_keeps_earlier_segment (cm : Moment) (seg : Seg) :
    (seg.score = cm.best_score →
      (extendMoment cm seg).best_segment = cm.best_segment) ∧
    ((extendMoment cm seg).best_segment ≠ cm.best_segment →
      cm.best_score < seg.score) ∧
    (cm.best_score < seg.score → (extendMoment cm seg).best_segment = seg) := by
  refine ⟨?_, ?_, fun h => extendMoment_best_of_lt cm seg h⟩
  · intro he
    apply extendMoment_best_of_le
    rw [he]
    exact lt_irrefl _
  · intro hne
    by_contra hnlt
    exact hne (extendMoment_best_of_le cm seg hnlt)

/-- Witness for C5: extending the moment opened by exSegA (score 0.9) with
the equal-score row exSegE keeps exSegA as representative, and extending it
with the strictly better row exSegC (score 0.95) installs exSegC; both
antecedents are discharged on genuinely satisfying inputs. -/
theorem tie_break_keeps_earlier_segment_witness :
    exSegE.score = (newMoment exSegA).best_score ∧
    (extendMoment (newMoment exSegA) exSegE).best_segment =
      (newMoment exSegA).best_segment ∧
    (newMoment exSegA).best_score < exSegC.score ∧
    (extendMoment (newMoment exSegA) exSegC).best_segment = exSegC :=
  ⟨by decide,
   (tie_break_keeps_earlier_segment (newMoment exSegA) exSegE).1 (by decide),
   by decide,
   (tie_break_keeps_earlier_segment (newMoment exSegA) exSegC).2.2 (by decide)⟩

/-- C6: the score filter keeps every row whose score equals min_score and
drops every row whose score is strictly below it. -/
theorem min_score_filter_inclusive (rows : List Seg) (min_score : ℚ) (r : Seg)
    (hr : r ∈ rows) :
    (r.score = min_score → r ∈ filter_by_min_score rows min_score) ∧
    (r.score < min_score → r ∉ filter_by_min_score rows min_score) := by
  constructor
  · intro he
    refine List.mem_filter.mpr ⟨hr, ?_⟩
    simp [he]
  · intro hlt hmem
    have h2 := (List.mem_filter.mp hmem).2
    simp at h2
    exact absurd h2 (not_le.mpr hlt)

/-- Witness for C6: with min_score 0.9, the row exSegA with score exactly
0.9 survives the filter and the row exSegB with score 0.5 is dropped. -/
theorem min_score_filter_inclusive_witness :
    exSegA ∈ [exSegA, exSegB] ∧
    exSegA ∈ filter_by_min_score [exSegA, exSegB] (mkRat 9 10) ∧
    exSegB ∉ filter_by_min_score [exSegA, exSegB] (mkRat 9 10) :=
  ⟨by decide,
   (min_score_filter_inclusive [exSegA, exSegB] (mkRat 9 10) exSegA (by decide)).1
     (by decide),
   (min_score_filter_inclusive [exSegA, exSegB] (mkRat 9 10) exSegB (by decide)).2
     (by decide)⟩

/-- C4: insert_video upserts by id: on a conflicting id the update path
re-applies the mutable columns duration_ms, width, height, status,
error_msg and thumbnail_url from the new values while keeping the stored
identity columns, and repeating the identical insert_video call leaves the
table unchanged, so re-ingestion under the same id is idempotent. -/
theorem insert_video_upsert_idempotent (t : VideosTable)
    (video_id user_id url : String) (duration_ms : Int)
    (width height : Option Int) (status : String)
    (error_msg thumbnail_url : Option String) (old : VideoRecord)
    (hold : t video_id = some old) :
    insert_video t video_id user_id url duration_ms width height status
        error_msg thumbnail_url video_id =
      some { user_id := old.user_id, url := old.url, duration_ms := duration_ms
             width := width, height := height, status := status
             error_msg := error_msg, thumbnail_url := thumbnail_url } ∧
    insert_video
        (insert_video t video_id user_id url duration_ms width height status
          error_msg thumbnail_url)
        video_id user_id url duration_ms width height status
        error_msg thumbnail_url =
      insert_video t video_id user_id url duration_ms width height status
        error_msg thumbnail_url := by
  constructor
  · simp [insert_video, hold]
  · funext id
    by_cases h : id = video_id
    · subst h
      cases h2 : t id <;> simp [insert_video, h2]
    · simp [insert_video, h]

/-- Witness for C4 on the concrete table exTable holding exOldRecord under
vid-1: the conflict path rewrites the mutable columns and the repeated call
is a no-op. -/
theorem insert_video_upsert_idempotent_witness :
    exTable "vid-1" = some exOldRecord ∧
    (insert_video exTable "vid-1" "user-1" "videos/user-1/new.mp4" 9000
        (some 1280) (some 720) "processing" none none "vid-1" =
      some { user_id := exOldRecord.user_id, url := exOldRecord.url
             duration_ms := 9000, width := some 1280, height := some 720
             status := "processing", error_msg := none, thumbnail_url := none } ∧
    insert_video
        (insert_video exTable "vid-1" "user-1" "videos/user-1/new.mp4" 9000
          (some 1280) (some 720) "processing" none none)
        "vid-1" "user-1" "videos/user-1/new.mp4" 9000
        (some 1280) (some 720) "processing" none none =
      insert_video exTable "vid-1" "user-1" "videos/user-1/new.mp4" 9000
        (some 1280) (some 720) "processing" none none) :=
  ⟨by decide,
   insert_video_upsert_idempotent exTable "vid-1" "user-1"
     "videos/user-1/new.mp4" 9000 (some 1280) (some 720) "processing"
     none none exOldRecord (by decide)⟩

/-- C7: when the ingest body raises, the run aborts with the primary
exception as its outcome; when the best-effort status update can run, the
table receives status error with the exception message, and when the update
itself fails that failure is swallowed while the primary exception is still
propagated. -/
theorem ingest_error_path_propagates
    (steps : VideosTable → VideosTable × Except String IngestSummary)
    (ok : Bool) (video_id : String) (t t1 : VideosTable) (e : String)
    (hrun : steps t = (t1, Except.error e)) :
    (ingest_video_run steps ok video_id t).2 = Except.error e ∧
    (ok = true → (ingest_video_run steps ok video_id t).1 =
      update_video_status t1 video_id "error" (some e)) ∧
    (ok = false → (ingest_video_run steps ok video_id t).1 = t1) := by
  unfold ingest_video_run
  rw [hrun]
  cases ok <;> simp

/-- Witness for C7 at a concrete failing ingest body over exTable, with the
status update succeeding. -/
theorem ingest_error_path_propagates_witness :
    exFailingSteps exTable =
      (exTable, Except.error "ffprobe failed: no video stream") ∧
    ((ingest_video_run exFailingSteps true "vid-1" exTable).2 =
      Except.error "ffprobe failed: no video stream" ∧
    (true = true → (ingest_video_run exFailingSteps true "vid-1" exTable).1 =
      update_video_status exTable "vid-1" "error"
        (some "ffprobe failed: no video stream")) ∧
    (true = false → (ingest_video_run exFailingSteps true "vid-1" exTable).1 =
      exTable)) :=
  ⟨rfl,
   ingest_error_path_propagates exFailingSteps true "vid-1" exTable exTable
     "ffprobe failed: no video stream" rfl⟩

/-- C8: the derived pool status is critical on zero available connections
with none waiting, warning on zero available with waiters, degraded when
fewer than thirty percent of the pool size is available, healthy
otherwise. -/
theorem pool_status_thresholds (available waiting size : Nat) :
    (available = 0 → waiting = 0 →
      pool_status available waiting size = "critical") ∧
    (available = 0 → 0 < waiting →
      pool_status available waiting size = "warning") ∧
    (available ≠ 0 → (available : ℚ) < (size : ℚ) * (3 / 10) →
      pool_status available waiting size = "degraded") ∧
    (available ≠ 0 → ¬ ((available : ℚ) < (size : ℚ) * (3 / 10)) →
      pool_status available waiting size = "healthy") := by
  refine ⟨?_, ?_, ?_, ?_⟩ <;> intro h1 h2 <;> simp [pool_status, h1, h2]

/-- Witness for C8: with one of ten connections available and none waiting,
the pool is reported degraded. -/
theorem pool_status_thresholds_witness :
    (1 : Nat) ≠ 0 ∧ (1 : ℚ) < (10 : ℚ) * (3 / 10) ∧
    pool_status 1 0 10 = "degraded" :=
  ⟨by decide, by norm_num,
   (pool_status_thresholds 1 0 10).2.2.1 (by decide) (by norm_num)⟩

/-- C3: the source declares SearchResult.preview_url with the plain type
str, so when signed-URL generation fails for the one surviving moment the
loop builds SearchResult with preview_url None, validation raises, and the
whole request fails instead of returning the item with a null preview; the
same moment is returned normally under a succeeding signer. -/
theorem signed_url_failure_fails_whole_request :
    buildSearchResults (fun _ _ => none) "frames" [exSegA] =
      Except.error "validation error: preview_url may not be None" ∧
    buildSearchResults (fun _ p => some (String.append "https://signed/" p))
        "frames" [exSegA] =
      Except.ok [{ video_id := "vidA", segment_id := "seg-a", timestamp_ms := 0
                   score := round4 (mkRat 9 10)
                   preview_url :=
                     String.append "https://signed/" "u/vidA/frame_00000000.jpg"
                   caption := some "a" }] :=
  ⟨rfl, rfl⟩

/-- The loop of group_into_moments never closes the open moment: after any
step the second state component is occupied. -/
theorem groupStep_snd_isSome (thr : Int) (st : List Seg × Option Moment)
    (seg : Seg) : ((groupStep thr st seg).2).isSome := by
  obtain ⟨m, c⟩ := st
  cases c with
  | none => simp [groupStep]
  | some cm =>
    simp only [groupStep]
    split <;> simp

/-- An occupied loop state stays occupied through the rest of the fold. -/
theorem foldl_groupStep_isSome (thr : Int) :
    ∀ (l : List Seg) (st : List Seg × Option Moment), st.2.isSome →
      ((l.foldl (groupStep thr) st).2).isSome := by
  intro l
  induction l with
  | nil => intro st h; exact h
  | cons a l ih =>
    intro st _
    rw [List.foldl_cons]
    exact ih _ (groupStep_snd_isSome thr st a)

/-- Invariant of the clustering fold: every property holding on the
accumulated moments, on the open representative and on the remaining rows
holds on the final moments and final representative. -/
theorem foldl_groupStep_mem (thr : Int) (P : Seg → Prop) :
    ∀ (l : List Seg) (acc : List Seg) (cur : Option Moment),
      (∀ x ∈ acc, P x) → (∀ cm, cur = some cm → P cm.best_segment) →
      (∀ x ∈ l, P x) →
      (∀ x ∈ (l.foldl (groupStep thr) (acc, cur)).1, P x) ∧
      (∀ cm, (l.foldl (groupStep thr) (acc, cur)).2 = some cm →
        P cm.best_segment) := by
  intro l
  induction l with
  | nil => intro acc cur h1 h2 _; exact ⟨h1, h2⟩
  | cons a l ih =>
    intro acc cur h1 h2 h3
    rw [List.foldl_cons]
    have ha : P a := h3 a (List.mem_cons_self a l)
    have h3' : ∀ x ∈ l, P x := fun x hx => h3 x (List.mem_cons_of_mem a hx)
    cases cur with
    | none =>
      refine ih acc (some (newMoment a)) h1 (fun cm hcm => ?_) h3'
      cases hcm
      exact ha
    | some cm =>
      by_cases htest : sameMomentTest thr cm a
      · have hstep : groupStep thr (acc, some cm) a =
            (acc, some (extendMoment cm a)) := by
          simp [groupStep, htest]
        rw [hstep]
        refine ih acc _ h1 (fun cm2 hcm2 => ?_) h3'
        cases hcm2
        by_cases hlt : cm.best_score < a.score
        · rw [extendMoment_best_of_lt cm a hlt]; exact ha
        · rw [extendMoment_best_of_le cm a hlt]; exact h2 cm rfl
      · have hstep : groupStep thr (acc, some cm) a =
            (acc ++ [cm.best_segment], some (newMoment a)) := by
          simp [groupStep, htest]
        rw [hstep]
        refine ih _ _ (fun x hx => ?_) (fun cm2 hcm2 => ?_) h3'
        · rcases List.mem_append.mp hx with h | h
          · exact h1 x h
          · rw [List.mem_singleton.mp h]; exact h2 cm rfl
        · cases hcm2
          exact ha

/-- Size invariant of the clustering fold: emitted moments plus the open
one never outnumber the rows consumed. -/
theorem foldl_groupStep_length (thr : Int) :
    ∀ (l : List Seg) (acc : List Seg) (cur : Option Moment),
      ((l.foldl (groupStep thr) (acc, cur)).1).length +
        stCount (l.foldl (groupStep thr) (acc, cur)).2 ≤
      acc.length + stCount cur + l.length := by
  intro l
  induction l with
  | nil => intro acc cur; simp
  | cons a l ih =>
    intro acc cur
    rw [List.foldl_cons, List.length_cons]
    cases cur with
    | none =>
      have h := ih acc (some (newMoment a))
      simp only [groupStep, stCount] at h ⊢
      omega
    | some cm =>
      by_cases htest : sameMomentTest thr cm a
      · have hstep : groupStep thr (acc, some cm) a =
            (acc, some (extendMoment cm a)) := by
          simp [groupStep, htest]
        rw [hstep]
        have h := ih acc (some (extendMoment cm a))
        simp only [stCount] at h ⊢
        omega
      · have hstep : groupStep thr (acc, some cm) a =
            (acc ++ [cm.best_segment], some (newMoment a)) := by
          simp [groupStep, htest]
        rw [hstep]
        have h := ih (acc ++ [cm.best_segment]) (some (newMoment a))
        simp only [stCount, List.length_append, List.length_singleton] at h ⊢
        omega

/-- The clustering output is the emitted moments followed by the
representative of the final open moment. -/
theorem group_into_moments_eq (segments : List Seg) (thr : Int) :
    group_into_moments segments thr =
      (momentsState thr segments).1 ++
        (match (momentsState thr segments).2 with
         | none => []
         | some cm => [cm.best_segment]) := by
  unfold group_into_moments
  rcases momentsState thr segments with ⟨m, c⟩
  cases c <;> simp

/-- C10: every element of the clustering output is one of the input rows
unchanged, the output is never longer than the input, and the output is
empty exactly when the input is empty. -/
theorem group_into_moments_structural (segments : List Seg) (thr : Int) :
    (∀ x ∈ group_into_moments segments thr, x ∈ segments) ∧
    (group_into_moments segments thr).length ≤ segments.length ∧
    (group_into_moments segments thr = [] ↔ segments = []) := by
  have hmem := foldl_groupStep_mem thr (fun x => x ∈ segments) segments []
    none (by simp) (by simp) (fun x hx => hx)
  have hlen := foldl_groupStep_length thr segments [] none
  refine ⟨?_, ?_, ?_⟩
  · intro x hx
    rw [group_into_moments_eq] at hx
    rcases List.mem_append.mp hx with h | h
    · exact hmem.1 x h
    · rcases hsome : (momentsState thr segments).2 with _ | cm
      · rw [hsome] at h; simp at h
      · rw [hsome] at h
        rw [List.mem_singleton.mp h]
        exact hmem.2 cm hsome
  · rw [group_into_moments_eq, List.length_append]
    have hms : segments.foldl (groupStep thr) ([], none) = momentsState thr segments := rfl
    rw [hms] at hlen
    rcases hsome : (momentsState thr segments).2 with _ | cm
    · rw [hsome] at hlen
      simp only [stCount] at hlen
      simpa using Nat.le_trans (by simp) hlen
    · rw [hsome] at hlen
      simp only [stCount] at hlen
      simpa using hlen
  · constructor
    · intro hout
      cases segments with
      | nil => rfl
      | cons a l =>
        exfalso
        have hs : ((momentsState thr (a :: l)).2).isSome := by
          unfold momentsState
          rw [List.foldl_cons]
          exact foldl_groupStep_isSome thr l _ (groupStep_snd_isSome thr ([], none) a)
        rw [group_into_moments_eq] at hout
        rcases hsome : (momentsState thr (a :: l)).2 with _ | cm
        · rw [hsome] at hs; simp at hs
        · rw [hsome] at hout; simp at hout
    · intro h
      rw [h]
      rfl

/-- Witness for C10 on the concrete three-row input of the clustering
example. -/
theorem group_into_moments_structural_witness :
    exSegA ∈ group_into_moments [exSegA, exSegB, exSegC] 2000 ∧
    exSegA ∈ [exSegA, exSegB, exSegC] ∧
    (group_into_moments [exSegA, exSegB, exSegC] 2000).length ≤ 3 ∧
    (group_into_moments [exSegA, exSegB, exSegC] 2000 = [] ↔
      ([exSegA, exSegB, exSegC] : List Seg) = []) :=
  ⟨by decide,
   (group_into_moments_structural [exSegA, exSegB, exSegC] 2000).1 exSegA
     (by decide),
   (group_into_moments_structural [exSegA, exSegB, exSegC] 2000).2.1,
   (group_into_moments_structural [exSegA, exSegB, exSegC] 2000).2.2⟩

/-- The fan-out worker returns its input row unchanged in the result
field. -/
theorem process_single_result_result (score_fn : String → String → ℚ)
    (query : String) (r : Seg) (i : Nat) (threshold : ℚ) :
    (process_single_result score_fn query r i threshold).result = r := by
  by_cases h : r.caption.getD "" = "" <;> simp [process_single_result, h]

/-- The fan-out worker returns its submission index unchanged. -/
theorem process_single_result_index (score_fn : String → String → ℚ)
    (query : String) (r : Seg) (i : Nat) (threshold : ℚ) :
    (process_single_result score_fn query r i threshold).index = i := by
  by_cases h : r.caption.getD "" = "" <;> simp [process_single_result, h]

/-- Every record produced by the submission loop carries an index at least
the starting index. -/
theorem submitAll_index_ge (score_fn : String → String → ℚ) (query : String)
    (threshold : ℚ) :
    ∀ (l : List Seg) (i : Nat) (p : Processed),
      p ∈ submitAll score_fn query threshold l i → i ≤ p.index := by
  intro l
  induction l with
  | nil => intro i p h; simp [submitAll] at h
  | cons r rs ih =>
    intro i p h
    simp only [submitAll] at h
    rcases List.mem_cons.mp h with h | h
    · rw [h, process_single_result_index]
    · exact Nat.le_of_succ_le (ih (i + 1) p h)

/-- The submission loop produces records with strictly increasing
indices. -/
theorem submitAll_pairwise (score_fn : String → String → ℚ) (query : String)
    (threshold : ℚ) :
    ∀ (l : List Seg) (i : Nat),
      List.Pairwise ltIdx (submitAll score_fn query threshold l i) := by
  intro l
  induction l with
  | nil => intro i; simp [submitAll]
  | cons r rs ih =>
    intro i
    simp only [submitAll]
    refine List.Pairwise.cons (fun p hp => ?_) (ih (i + 1))
    have h1 := submitAll_index_ge score_fn query threshold rs (i + 1) p hp
    unfold ltIdx
    rw [process_single_result_index]
    omega

/-- A list sorted by index whose indices are distinct is strictly sorted by
index. -/
theorem sorted_le_nodup_index_pairwise_lt (l : List Processed)
    (hs : List.Sorted leIdx l) (hn : (l.map Processed.index).Nodup) :
    List.Pairwise ltIdx l := by
  have hne : l.Pairwise (fun a b => a.index ≠ b.index) := List.pairwise_map.mp hn
  have hle : l.Pairwise leIdx := hs
  exact (hle.and hne).imp (fun {a b} h => Nat.lt_of_le_of_ne h.1 h.2)

/-- Sorting any completion order of the fan-out by submission index
restores exactly the submission-order list. -/
theorem sort_completion_eq (score_fn : String → String → ℚ) (query : String)
    (threshold : ℚ) (results : List Seg) (completion : List Processed)
    (hperm : List.Perm completion (submitAll score_fn query threshold results 1)) :
    List.insertionSort leIdx completion =
      submitAll score_fn query threshold results 1 := by
  have hperm2 : List.Perm (List.insertionSort leIdx completion)
      (submitAll score_fn query threshold results 1) :=
    (List.perm_insertionSort leIdx completion).trans hperm
  have hsorted : List.Sorted leIdx (List.insertionSort leIdx completion) :=
    List.sorted_insertionSort leIdx completion
  have hplt : List.Pairwise ltIdx (submitAll score_fn query threshold results 1) :=
    submitAll_pairwise score_fn query threshold results 1
  have hnodc : ((submitAll score_fn query threshold results 1).map Processed.index).Nodup :=
    List.pairwise_map.mpr (hplt.imp (fun {a b} h => Nat.ne_of_lt h))
  have hnods : ((List.insertionSort leIdx completion).map Processed.index).Nodup :=
    ((hperm2.map Processed.index).nodup_iff).mpr hnodc
  have hplt2 : List.Pairwise ltIdx (List.insertionSort leIdx completion) :=
    sorted_le_nodup_index_pairwise_lt _ hsorted hnods
  exact List.eq_of_perm_of_sorted hperm2 hplt2 hplt

/-- Unfolding of the final filtering loop over one processed record. -/
theorem keepPassed_cons (p : Processed) (l : List Processed) :
    keepPassed (p :: l) =
      (if ¬ p.skipped = true ∧ p.passed = true then [p.result] else []) ++
        keepPassed l := by
  unfold keepPassed
  rw [List.filterMap_cons]
  by_cases h1 : p.skipped
  · simp [h1]
  · by_cases h2 : p.passed <;> simp [h1, h2]

/-- The in-order filtering of the fan-out output is a sublist of the input
rows. -/
theorem keepPassed_submitAll_sublist (score_fn : String → String → ℚ)
    (query : String) (threshold : ℚ) :
    ∀ (l : List Seg) (i : Nat),
      List.Sublist (keepPassed (submitAll score_fn query threshold l i)) l := by
  intro l
  induction l with
  | nil => intro i; simp [submitAll, keepPassed]
  | cons r rs ih =>
    intro i
    simp only [submitAll]
    rw [keepPassed_cons, process_single_result_result]
    split
    · exact List.Sublist.cons₂ r (ih (i + 1))
    · exact List.Sublist.cons r (ih (i + 1))

/-- When every row carries caption text and clears the threshold, the
in-order filtering keeps the whole input. -/
theorem keepPassed_submitAll_all_pass (score_fn : String → String → ℚ)
    (query : String) (threshold : ℚ) :
    ∀ (l : List Seg) (i : Nat),
      (∀ r ∈ l, r.caption.getD "" ≠ "" ∧
        threshold ≤ score_fn query (r.caption.getD "")) →
      keepPassed (submitAll score_fn query threshold l i) = l := by
  intro l
  induction l with
  | nil => intro i _; rfl
  | cons r rs ih =>
    intro i h
    have hc := h r (List.mem_cons_self r rs)
    have hskip : (process_single_result score_fn query r i threshold).skipped = false := by
      unfold process_single_result
      rw [if_neg hc.1]
    have hpass : (process_single_result score_fn query r i threshold).passed = true := by
      unfold process_single_result
      rw [if_neg hc.1]
      exact decide_eq_true hc.2
    simp only [submitAll]
    rw [keepPassed_cons, process_single_result_result,
      if_pos ⟨by rw [hskip]; exact Bool.false_ne_true, hpass⟩,
      ih (i + 1) (fun x hx => h x (List.mem_cons_of_mem r hx))]
    rfl

/-- C9: for every completion order of the parallel workers, the fan-out
re-ranking returns the surviving results of the in-order filtering: the
output is independent of the completion order, is a sublist of the input
(hence in original request order and of length at most N), and equals the
whole input exactly when no row is dropped for a missing caption or
filtered by the threshold. -/
theorem fanout_order_invariant (score_fn : String → String → ℚ)
    (query : String) (results : List Seg) (threshold : ℚ)
    (completion : List Processed)
    (hperm : List.Perm completion (submitAll score_fn query threshold results 1)) :
    filter_results_by_semantic_similarity score_fn query results threshold
        completion =
      keepPassed (submitAll score_fn query threshold results 1) ∧
    List.Sublist
      (filter_results_by_semantic_similarity score_fn query results threshold
        completion) results ∧
    ((∀ r ∈ results, r.caption.getD "" ≠ "" ∧
        threshold ≤ score_fn query (r.caption.getD "")) →
      filter_results_by_semantic_similarity score_fn query results threshold
          completion = results) := by
  have heq : filter_results_by_semantic_similarity score_fn query results
      threshold completion =
      keepPassed (submitAll score_fn query threshold results 1) := by
    unfold filter_results_by_semantic_similarity
    by_cases hres : results = []
    · rw [if_pos hres]
      subst hres
      rfl
    · rw [if_neg hres,
        sort_completion_eq score_fn query threshold results completion hperm]
  refine ⟨heq, ?_, ?_⟩
  · rw [heq]
    exact keepPassed_submitAll_sublist score_fn query threshold results 1
  · intro hall
    rw [heq]
    exact keepPassed_submitAll_all_pass score_fn query threshold results 1 hall

/-- Witness for C9: two rows, a completion order delivering the second
worker first, and a threshold every caption clears; the returned list is
order-independent and equals the full input in request order. -/
theorem fanout_order_invariant_witness :
    List.Perm exCompletion
      (submitAll exScoreFn "q" (mkRat 7 10) [exSegA, exSegB] 1) ∧
    filter_results_by_semantic_similarity exScoreFn "q" [exSegA, exSegB]
        (mkRat 7 10) exCompletion =
      keepPassed (submitAll exScoreFn "q" (mkRat 7 10) [exSegA, exSegB] 1) ∧
    List.Sublist
      (filter_results_by_semantic_similarity exScoreFn "q" [exSegA, exSegB]
        (mkRat 7 10) exCompletion) [exSegA, exSegB] ∧
    filter_results_by_semantic_similarity exScoreFn "q" [exSegA, exSegB]
        (mkRat 7 10) exCompletion = [exSegA, exSegB] := by
  have h := fanout_order_invariant exScoreFn "q" [exSegA, exSegB] (mkRat 7 10)
    exCompletion (by decide)
  exact ⟨by decide, h.1, h.2.1, h.2.2 (by decide)⟩
